import Mathlib

/-!
Verification of the eou killmail ingestion pipeline against its
natural-language specification.  The definitions below are a shallow
embedding of `scripts/pipeline.py` (and, where noted, of
`scripts/zkb/rq_listener.py`): Python functions become Lean functions,
the HTTP world is passed in as explicit response oracles, and the
BigQuery view/query pair becomes a pure projection over the append-only
logs.  Machine integers are modelled as `Int`/`Nat` (no overflow is
relevant anywhere in the scripts).
-/

namespace Eou

/-! ## Durability Ledger — `LedgerClient.append`, pipeline.py lines 75-89 -/

/-- One HTTP response to a Ledger POST: the status code and whether the JSON
body's `ok` field is literally `True` (`resp.get("ok") is True`). -/
structure LedgerResponse where
  status : Nat
  okField : Bool
  deriving DecidableEq, Repr

/-- `r.status_code == 200` and the parsed body's `ok` field is `True`: the
condition under which `LedgerClient.append` returns normally. -/
def ledgerSuccess (r : LedgerResponse) : Bool :=
  r.status == 200 && r.okField

/-- Observable events of `LedgerClient.append`: an HTTP POST (with its attempt
index) or a `time.sleep` of the given number of seconds. -/
inductive LedgerEvent where
  | post (attempt : Nat)
  | sleep (seconds : Nat)
  deriving DecidableEq, Repr

/-- The loop `for attempt in range(3)` of `LedgerClient.append`: POST, return
on success, otherwise `time.sleep(2 ** attempt)`; after the loop a
`RuntimeError` is raised.  `resps i` is the response to the i-th POST.  The
result is the event trace plus `true` when append returned normally and
`false` when it raised. -/
def ledger_append_aux (resps : Nat → LedgerResponse) : Nat → Nat → List LedgerEvent × Bool
  | 0, _ => ([], false)
  | fuel + 1, i =>
    if ledgerSuccess (resps i) then ([LedgerEvent.post i], true)
    else
      let rest := ledger_append_aux resps fuel (i + 1)
      (LedgerEvent.post i :: LedgerEvent.sleep (2 ^ i) :: rest.1, rest.2)

/-- `LedgerClient.append` with its hard-coded bound of 3 attempts. -/
def ledger_append (resps : Nat → LedgerResponse) : List LedgerEvent × Bool :=
  ledger_append_aux resps 3 0

/-! ## Durable-side operations of one tick — `main`, pipeline.py lines 496-626

`main` (mode "tick") touches the Ledger and the Store in this order:
ledger append of the raw batch (step 2), store load of the raw batch
(step 3), ledger appends of attempts/enriched/discarded (step 5, in that
order), store loads of the same three batches (step 6).  Appends happen only
when the Ledger is configured (`ledger_url and ledger_secret`) and the batch
is non-empty; loads happen only when the batch is non-empty.  A failed append
raises `RuntimeError`, which propagates out of `main` and aborts the run. -/

/-- A durable-side operation: a Ledger append to a stream or a BigQuery batch
load into a log table. -/
inductive TickOp where
  | ledgerAppend (stream : String)
  | storeLoad (table : String)
  deriving DecidableEq, Repr

/-- The sequence of durable-side operations `main` attempts, in program order.
`cfg` is whether the Ledger is configured; `rawNE`/`attNE`/`enrNE`/`disNE` are
whether the raw/attempt/enriched/discarded batches are non-empty. -/
def tickProgram (cfg rawNE attNE enrNE disNE : Bool) : List TickOp :=
  (if cfg && rawNE then [TickOp.ledgerAppend "redisq_raw"] else []) ++
  (if rawNE then [TickOp.storeLoad "redisq_raw_log"] else []) ++
  (if cfg && attNE then [TickOp.ledgerAppend "enrich_attempts"] else []) ++
  (if cfg && enrNE then [TickOp.ledgerAppend "enriched"] else []) ++
  (if cfg && disNE then [TickOp.ledgerAppend "discarded"] else []) ++
  (if attNE then [TickOp.storeLoad "enrich_attempts_log"] else []) ++
  (if enrNE then [TickOp.storeLoad "kills_enriched_log"] else []) ++
  (if disNE then [TickOp.storeLoad "kills_discarded_log"] else [])

/-- Run the tick's operations in order.  `ok s` is whether the (up to 3
attempts of the) Ledger append for stream `s` eventually succeeds; a failing
append raises, so the remaining operations are not executed and the flag is
`false` (run aborted). -/
def runTick (ok : String → Bool) : List TickOp → List TickOp × Bool
  | [] => ([], true)
  | TickOp.ledgerAppend s :: rest =>
    if ok s then
      let r := runTick ok rest
      (TickOp.ledgerAppend s :: r.1, r.2)
    else ([TickOp.ledgerAppend s], false)
  | TickOp.storeLoad t :: rest =>
    let r := runTick ok rest
    (TickOp.storeLoad t :: r.1, r.2)

/-- The executed durable-side trace of one tick, with its success flag. -/
def tickTrace (cfg rawNE attNE enrNE disNE : Bool) (ok : String → Bool) :
    List TickOp × Bool :=
  runTick ok (tickProgram cfg rawNE attNE enrNE disNE)

/-- Ledger-append success per stream, from four booleans (the per-stream
outcomes of the four `LedgerClient.append` calls a tick can make). -/
def okOf (okRaw okAtt okEnr okDis : Bool) : String → Bool := fun s =>
  if s == "redisq_raw" then okRaw
  else if s == "enrich_attempts" then okAtt
  else if s == "enriched" then okEnr
  else if s == "discarded" then okDis
  else false

/-- `true` iff the operation is a Store load. -/
def isStoreLoad : TickOp → Bool
  | TickOp.storeLoad _ => true
  | TickOp.ledgerAppend _ => false

/-- `appearsBefore a b l = true` iff some occurrence of `a` in `l` is strictly
before some occurrence of `b`. -/
def appearsBefore (a b : TickOp) : List TickOp → Bool
  | [] => false
  | x :: xs => (x == a && xs.contains b) || appearsBefore a b xs

/-! ## Rate-adaptive API client — class `ESI`, pipeline.py lines 91-154 -/

def ESI_BASE : String := "https://esi.evetech.net/latest"

/-- The per-run client state: `self.etag` and `self.cache`, both keyed by the
resolved URL.  The body type `V` stands for the opaque parsed JSON value. -/
structure EsiState (V : Type) where
  etag : List (String × String)
  cache : List (String × V)
  deriving DecidableEq

/-- An HTTP response as `get_json` consumes it: status code, optional `ETag`
response header, and the parsed body.  (The error-limit headers only drive a
`time.sleep`, which has no effect on the returned data and is not modelled.) -/
structure EsiResponse (V : Type) where
  status : Nat
  etagHeader : Option String
  body : V

/-- An HTTP request as `get_json` issues it: the URL and the optional
`If-None-Match` header. -/
structure EsiRequest where
  url : String
  ifNoneMatch : Option String
  deriving DecidableEq, Repr

/-- Python dict assignment `d[k] = v`: replace the existing binding or append
a new one. -/
def setAssoc {V : Type} : List (String × V) → String → V → List (String × V)
  | [], k, v => [(k, v)]
  | (k', v') :: rest, k, v =>
    if k' == k then (k, v) :: rest else (k', v') :: setAssoc rest k v

/-- `ESI.get_json` (pipeline.py lines 112-133).  `net` answers each issued
request.  Returns the outcome (`Except.error` for `raise_for_status` on a
status ≥ 400 and for the `KeyError` that `self.cache[url]` would raise on a
304 with no cached body), the resulting client state, and the list of
requests actually issued over the network. -/
def get_json {V : Type} (net : EsiRequest → EsiResponse V) (st : EsiState V)
    (path : String) : Except String (V × EsiState V) × List EsiRequest :=
  let url := ESI_BASE ++ path
  match st.cache.lookup url with
  | some v => (Except.ok (v, st), [])
  | none =>
    let req : EsiRequest := ⟨url, st.etag.lookup url⟩
    let r := net req
    if r.status == 304 then
      match st.cache.lookup url with
      | some v => (Except.ok (v, st), [req])
      | none => (Except.error "KeyError", [req])
    else if 400 ≤ r.status then
      (Except.error ("HTTPError " ++ toString r.status), [req])
    else
      let etag' := match r.etagHeader with
        | some e => setAssoc st.etag url e
        | none => st.etag
      (Except.ok (r.body, ⟨etag', setAssoc st.cache url r.body⟩), [req])

/-- The client state after a further sequence of `get_json` calls within the
same run: each step is one call with its own path against its own network
responses; a successful call threads the new state, while a call that raises
(`Except.error`) leaves the client state unchanged — faithful to the code,
where both `self.etag` and `self.cache` assignments sit after every raise
point of `get_json`. -/
def run_steps {V : Type} :
    List ((EsiRequest → EsiResponse V) × String) → EsiState V → EsiState V
  | [], st => st
  | (net, path) :: rest, st =>
    match get_json net st path with
    | (Except.ok (_, st'), _) => run_steps rest st'
    | (Except.error _, _) => run_steps rest st

/-! ## Event pollers — `redisq_listen` (pipeline.py lines 157-182) and the
standalone listener loop (rq_listener.py lines 36-81) -/

/-- A long-poll response: HTTP status and the optional `package` field of the
JSON body (`none` both for an absent field and for a JSON `null`). -/
structure PollResponse (P : Type) where
  status : Nat
  package : Option P

/-- `redisq_listen`'s loop: `for _ in range(max_polls)`, one GET per
iteration (`resps i` answers the i-th GET); on 429 sleep 1s and continue with
the next iteration; `raise_for_status` on any other status ≥ 400; on a
missing/null `package`, `break` out of the loop; otherwise collect the
package (then a 0.55s pacing sleep) and continue. -/
def redisq_listen_aux {P : Type} (resps : Nat → PollResponse P) :
    Nat → Nat → List P → Except Nat (List P)
  | 0, _, out => Except.ok out.reverse
  | fuel + 1, i, out =>
    let r := resps i
    if r.status == 429 then redisq_listen_aux resps fuel (i + 1) out
    else if 400 ≤ r.status then Except.error r.status
    else
      match r.package with
      | none => Except.ok out.reverse
      | some p => redisq_listen_aux resps fuel (i + 1) (p :: out)

/-- `redisq_listen(queue_id, ttw, max_polls, ...)`: run the loop from the
first response with an empty accumulator. -/
def redisq_listen {P : Type} (resps : Nat → PollResponse P) (max_polls : Nat) :
    Except Nat (List P) :=
  redisq_listen_aux resps max_polls 0 []

/-- The fields of a RedisQ package that rq_listener.py's row extraction
checks before writing a row. -/
structure RqPkg where
  killmail_id : Option Int
  hash : Option String
  deriving DecidableEq, Repr

/-- The polling loop of rq_listener.py `main` (lines 36-81):
`for _ in range(max_packages)`; a 429 or any non-200 status breaks the loop;
a missing/null `package` is `continue` (polling goes on); a package without
`killmail_id` or `hash` is also skipped with `continue`; otherwise the row is
written.  Network exceptions (which also break) are not modelled: `resps` is
total. -/
def rq_listener_loop (resps : Nat → PollResponse RqPkg) :
    Nat → Nat → List RqPkg → List RqPkg
  | 0, _, out => out.reverse
  | fuel + 1, i, out =>
    let r := resps i
    if r.status == 429 then out.reverse
    else if r.status != 200 then out.reverse
    else
      match r.package with
      | none => rq_listener_loop resps fuel (i + 1) out
      | some p =>
        if p.killmail_id.isNone || p.hash.isNone then
          rq_listener_loop resps fuel (i + 1) out
        else rq_listener_loop resps fuel (i + 1) (p :: out)

/-! ## Durable Store / pending-state computation — the view
`v_kills_raw_state` (pipeline.py lines 204-258) and `choose_pending`
(lines 261-271), as a pure projection over the three append-only logs. -/

/-- One row of `redisq_raw_log` (only the columns the pending-state
computation reads; timestamps are modelled as naturals). -/
structure RawRow where
  killmail_id : Int
  redisq_request_ts : Nat
  deriving DecidableEq, Repr

/-- One row of `enrich_attempts_log` (only the columns the view reads). -/
structure AttemptLogRow where
  killmail_id : Int
  attempt_ts : Nat
  ok : Bool
  deriving DecidableEq, Repr

/-- The distinct killmail ids of the raw log (`GROUP BY killmail_id`). -/
def rawKids (raw : List RawRow) : List Int :=
  (raw.map (·.killmail_id)).dedup

/-- The view's `worked` column: the id occurs in `kills_enriched_log` or in
`kills_discarded_log` (each taken as its list of killmail ids). -/
def worked (enr dis : List Int) (k : Int) : Bool :=
  enr.contains k || dis.contains k

/-- The view's `attempts` column: `COUNT(1)` of the attempt rows for the id
(`IFNULL(att.attempts, 0)` makes it 0 when there are none). -/
def attemptsOf (att : List AttemptLogRow) (k : Int) : Nat :=
  (att.filter (fun a => a.killmail_id == k)).length

/-- Minimum of a list of timestamps (0 for the empty list; the view only
evaluates it on non-empty groups). -/
def tsMin : List Nat → Nat
  | [] => 0
  | x :: xs => xs.foldl Nat.min x

/-- The view's `first_seen_ts` column: `MIN(redisq_request_ts)` over the raw
rows of the id. -/
def first_seen_ts (raw : List RawRow) (k : Int) : Nat :=
  tsMin ((raw.filter (fun r => r.killmail_id == k)).map (·.redisq_request_ts))

/-- One row of the view `v_kills_raw_state` (the columns `choose_pending`
uses). -/
structure StateRow where
  killmail_id : Int
  first_seen : Nat
  worked : Bool
  attempts : Nat
  deriving DecidableEq, Repr

/-- The view `v_kills_raw_state`: one row per distinct killmail id of the raw
log, with the derived `first_seen_ts`, `worked` and `attempts` columns. -/
def v_kills_raw_state (raw : List RawRow) (att : List AttemptLogRow)
    (enr dis : List Int) : List StateRow :=
  (rawKids raw).map
    (fun k => ⟨k, first_seen_ts raw k, worked enr dis k, attemptsOf att k⟩)

/-- The WHERE clause of `choose_pending`: `worked = FALSE AND attempts <= 10`. -/
def pendingPred (r : StateRow) : Bool :=
  r.worked == false && decide (r.attempts ≤ 10)

/-- The ORDER BY relation of `choose_pending`: ascending `first_seen_ts`. -/
def byFirstSeen (a b : StateRow) : Prop := a.first_seen ≤ b.first_seen

instance : DecidableRel byFirstSeen :=
  fun a b => inferInstanceAs (Decidable (a.first_seen ≤ b.first_seen))

instance : IsTotal StateRow byFirstSeen :=
  ⟨fun a b => Nat.le_total a.first_seen b.first_seen⟩

instance : IsTrans StateRow byFirstSeen :=
  ⟨fun _ _ _ h1 h2 => Nat.le_trans h1 h2⟩

/-- `choose_pending(project, dataset, limit_n)`: filter the view by
`pendingPred`, `ORDER BY redisq_first_seen_ts ASC`, `LIMIT limit_n`.  (SQL
leaves the relative order of equal-timestamp rows unspecified; the embedding
fixes one admissible order via a stable insertion sort.) -/
def choose_pending (raw : List RawRow) (att : List AttemptLogRow)
    (enr dis : List Int) (limit_n : Nat) : List StateRow :=
  (List.insertionSort byFirstSeen
    ((v_kills_raw_state raw att enr dis).filter pendingPred)).take limit_n

/-! ## Classification engine — filter rules and `victim_ship_class`
(pipeline.py lines 273-371 and the tick loop lines 517-595) -/

/-- One attacker entry of an ESI killmail (the fields the scripts read). -/
structure Attacker where
  character_id : Option Int
  corporation_id : Option Int
  final_blow : Bool
  damage_done : Option Int
  deriving DecidableEq, Repr

/-- An ESI killmail (the fields the filter stage reads). -/
structure Killmail where
  victim_character_id : Option Int
  attackers : List Attacker
  deriving DecidableEq, Repr

/-- Python truthiness of an optional integer field: present and non-zero. -/
def truthy : Option Int → Bool
  | some n => n != 0
  | none => false

/-- `is_pvp` (pipeline.py lines 287-290): at least one attacker has a truthy
`character_id`. -/
def is_pvp (km : Killmail) : Bool :=
  km.attackers.any (fun a => truthy a.character_id)

/-- `is_self_destruct` (pipeline.py lines 273-285): falsy victim character id
or attacker count ≠ 1 gives `False`; otherwise the sole attacker's
`character_id` is compared with the victim's. -/
def is_self_destruct (km : Killmail) : Bool :=
  if !truthy km.victim_character_id || km.attackers.length != 1 then false
  else
    match km.attackers with
    | a :: _ => a.character_id == km.victim_character_id
    | [] => false

/-- The three discard rules of the tick's filter stage in program order
(pipeline.py lines 529-555): `npc_only_or_not_pvp` when `not is_pvp(km) or
row["npc"]`, then `awox_friendly_fire` when `row["awox"]`, then
`self_destruct`; `none` means the event survives to enrichment. -/
def filter_reason (npc awox : Bool) (km : Killmail) : Option String :=
  if !is_pvp km || npc then some "npc_only_or_not_pvp"
  else if awox then some "awox_friendly_fire"
  else if is_self_destruct km then some "self_destruct"
  else none

/-- One row of `enrich_attempts_log` as the tick emits it (`stage`, `ok`,
`error`; `run_id`/timestamps carry no information for the claims). -/
structure AttemptRow where
  stage : String
  ok : Bool
  error : String
  deriving DecidableEq, Repr

/-- What processing one pending item contributes to the tick's batches. -/
structure ItemOutcome where
  attempts : List AttemptRow
  discard_reason : Option String
  enriched : Bool
  deriving DecidableEq, Repr

/-- The body of the per-item try/except in the tick loop (pipeline.py lines
526-595).  `fetch` is the outcome of `esi.killmail(...)` (`Except.error msg`
when it raises); `enrich_exc` is `some msg` when one of the enrichment
computations raises after the filters pass.  Every raised exception is caught
by the `except` arm, which records an attempt with stage `"enrich"`,
`ok=False` and the message truncated to 500 characters. -/
def process_item (npc awox : Bool) (fetch : Except String Killmail)
    (enrich_exc : Option String) : ItemOutcome :=
  match fetch with
  | Except.error msg => ⟨[⟨"enrich", false, msg.take 500⟩], none, false⟩
  | Except.ok km =>
    match filter_reason npc awox km with
    | some reason => ⟨[⟨"filter", true, ""⟩], some reason, false⟩
    | none =>
      match enrich_exc with
      | some msg => ⟨[⟨"enrich", false, msg.take 500⟩], none, false⟩
      | none => ⟨[⟨"enrich", true, ""⟩], none, true⟩

/-- Python `s.split(":")` on the character list: split at every colon. -/
def splitColonAux : List Char → List Char → List (List Char)
  | [], acc => [acc.reverse]
  | x :: xs, acc =>
    if x == ':' then acc.reverse :: splitColonAux xs []
    else splitColonAux xs (x :: acc)

/-- Fold a non-empty all-digit character list to its numeric value
(`none` otherwise). -/
def digitsToNat : List Char → Option Nat
  | [] => none
  | l =>
    l.foldl
      (fun acc c =>
        match acc with
        | some n => if c.isDigit then some (n * 10 + (c.toNat - 48)) else none
        | none => none)
      (some 0)

/-- Python `int(s)` on a decimal string: an optional sign followed by digits.
(Python also strips surrounding whitespace and accepts underscores between
digits; no `cat:` label of that shape exists and the claims do not depend on
it.) -/
def pyInt (s : String) : Option Int :=
  match s.data with
  | '-' :: rest => (digitsToNat rest).map (fun n => -(n : Int))
  | '+' :: rest => (digitsToNat rest).map (fun n => (n : Int))
  | l => (digitsToNat l).map (fun n => (n : Int))

/-- `int(x.split(":")[1])` guarded by `x.startswith("cat:")`, with the
surrounding try/except: `none` when the label is not a parseable `cat:N`. -/
def parse_cat (x : String) : Option Int :=
  if "cat:".data.isPrefixOf x.data then
    match (splitColonAux x.data [])[1]? with
    | some s => pyInt (String.mk s)
    | none => none
  else none

/-- The label loop of `victim_ship_class` (pipeline.py lines 359-369): scan
the iterated labels in order; for each parseable `cat:N` label first test
`6 <= N <= 7 and "cat:6" not in lab` (capital), then `N <= 5` (subcapital);
unparseable labels and other N are skipped. -/
def cat_label_scan (lab : List String) : List String → Option (String × Bool × Bool)
  | [] => none
  | x :: rest =>
    match parse_cat x with
    | some n =>
      if 6 ≤ n ∧ n ≤ 7 ∧ lab.contains "cat:6" = false then
        some ("capital", false, false)
      else if n ≤ 5 then some ("subcapital", false, false)
      else cat_label_scan lab rest
    | none => cat_label_scan lab rest

/-- Python `s.lower()`: per-character lowercasing. -/
def pyLower (s : String) : String := String.mk (s.data.map Char.toLower)

/-- `victim_ship_class(km, labels, esi)` (pipeline.py lines 312-371),
returning `(ship_class, is_freighter, is_capsule)`.

`lab` is the iteration order of the Python value `set(labels)`: the same
elements with duplicates removed, in an order the language does not specify
(membership tests are order-independent).  `group_name` is the victim ship's
resolved metadata group name — `gi.get("name")` after the
`ship_type_id → type_info → group_info` lookups — or `none` when
`ship_type_id`/`group_id` is falsy; the code lowercases it before every
comparison, and the hauler branch re-runs the same (cached) lookups, so one
value serves both uses.  `pyLower (none.getD "") = ""` matches no group name,
exactly like the code's skipped lookup. -/
def victim_ship_class (lab : List String) (group_name : Option String) :
    String × Bool × Bool :=
  if lab.contains "cat:8" then ("structure", false, false)
  else
    let gname := pyLower (group_name.getD "")
    let is_capsule := gname == "capsule"
    let is_freighter := gname == "freighter" || gname == "jump freighter"
    if is_capsule then ("capsule", false, true)
    else if lab.contains "cat:6" || is_freighter then ("freighter", true, false)
    else if gname == "industrial" || gname == "transport ship" ||
        gname == "blockade runner" || gname == "deep space transport" then
      ("hauler", false, false)
    else
      match cat_label_scan lab lab with
      | some res => res
      | none => ("subcapital", false, false)

/-! ## Attacker-corp attribution — `attacker_corp_names`, pipeline.py
lines 395-444 -/

/-- `corp_counts[cid] = corp_counts.get(cid, 0) + 1` on a Python dict:
insertion order is preserved, an existing key keeps its position. -/
def bump_count : List (Int × Nat) → Int → List (Int × Nat)
  | [], c => [(c, 1)]
  | (k, n) :: rest, c =>
    if k == c then (k, n + 1) :: rest else (k, n) :: bump_count rest c

/-- The `corp_id -> count` dict: one pass over the attackers, counting only
truthy `corporation_id` values. -/
def corp_counts (attackers : List Attacker) : List (Int × Nat) :=
  attackers.foldl
    (fun m a =>
      match a.corporation_id with
      | some c => if c != 0 then bump_count m c else m
      | none => m)
    []

/-- `dmg = int(a.get("damage_done") or 0)`: the attacker's damage, defaulting
to 0 when the field is absent (or 0). -/
def dmg_of (a : Attacker) : Int :=
  match a.damage_done with
  | some d => d
  | none => 0

/-- The single pass computing `final_corp` and `(topdmg_corp, topdmg)`
(pipeline.py lines 408-417): the final-blow corp is overwritten by each
final-blow attacker with a truthy corp (so the last one wins); the top-damage
corp is replaced only on strictly greater damage (so the first maximum wins),
and only by attackers with a truthy corp. -/
def scan_final_top : List Attacker → Option Int × Option Int × Int →
    Option Int × Option Int × Int
  | [], st => st
  | a :: rest, (fc, tc, td) =>
    let fc' := if a.final_blow && truthy a.corporation_id then a.corporation_id else fc
    let dmg := dmg_of a
    let p := if decide (td < dmg) && truthy a.corporation_id then
        (a.corporation_id, dmg)
      else (tc, td)
    scan_final_top rest (fc', p.1, p.2)

/-- Tail of Python's `max(items, key=lambda kv: kv[1])`: keep the current
maximum unless a strictly larger count appears (first maximum wins). -/
def max_count_go : List (Int × Nat) → Int → Nat → Int
  | [], c, _ => c
  | (c', n') :: rest, c, n =>
    if n < n' then max_count_go rest c' n' else max_count_go rest c n

/-- `max(corp_counts.items(), key=lambda kv: kv[1])[0] if corp_counts else
None`. -/
def max_by_count : List (Int × Nat) → Option Int
  | [] => none
  | (c, n) :: rest => some (max_count_go rest c n)

/-- `threshold = max(1, int(len(attackers) * 0.25))`: multiplying by 0.25 is
exact in binary floating point and `int` truncates toward zero, so this is
`max 1 (total / 4)` in natural-number division. -/
def quarter_threshold (total : Nat) : Nat := max 1 (total / 4)

/-- `[cid for cid, cnt in corp_counts.items() if cnt >= threshold]`. -/
def quarter_corps (counts : List (Int × Nat)) (total : Nat) : List Int :=
  (counts.filter (fun kv => decide (quarter_threshold total ≤ kv.2))).map (·.1)

/-- The `chosen` loop (pipeline.py lines 428-431): walk the candidate ids in
priority order, keeping each truthy id not already kept. -/
def build_chosen : List (Option Int) → List Int → List Int
  | [], acc => acc
  | c :: rest, acc =>
    match c with
    | some cid =>
      if cid != 0 && !acc.contains cid then build_chosen rest (acc ++ [cid])
      else build_chosen rest acc
    | none => build_chosen rest acc

/-- The name-resolution loop (pipeline.py lines 433-438): `corp_name cid`
is `none` when `esi.corp_name` raises (the id is silently skipped) and
`some n` when the call returns, where `n` is the corporation's optional
`name` field. -/
def fetch_names (corp_name : Int → Option (Option String)) :
    List Int → List (Option String)
  | [] => []
  | cid :: rest =>
    match corp_name cid with
    | some n => n :: fetch_names corp_name rest
    | none => fetch_names corp_name rest

/-- The final dedup loop (pipeline.py lines 440-443): keep each truthy name
(`n` neither `None` nor the empty string) not already kept. -/
def dedup_names : List (Option String) → List String → List String
  | [], out => out
  | n :: rest, out =>
    match n with
    | some s =>
      if s != "" && !out.contains s then dedup_names rest (out ++ [s])
      else dedup_names rest out
    | none => dedup_names rest out

/-- `attacker_corp_names(km, esi)` (pipeline.py lines 395-444). -/
def attacker_corp_names (attackers : List Attacker)
    (corp_name : Int → Option (Option String)) : List String :=
  if attackers.isEmpty then []
  else
    let counts := corp_counts attackers
    let ft := scan_final_top attackers (none, none, -1)
    let final_corp := ft.1
    let topdmg_corp := ft.2.1
    let maxc := max_by_count counts
    let qs := quarter_corps counts attackers.length
    let chosen := build_chosen ([final_corp, topdmg_corp, maxc] ++ qs.map some) []
    dedup_names (fetch_names corp_name chosen) []

/-! ## Theorems -/

/-- When every one of the three attempts fails, `LedgerClient.append` posts
three times, sleeps 1, 2 and 4 seconds, and raises. -/
theorem ledger_append_exhausts (resps : Nat → LedgerResponse)
    (hfail : ∀ i, i < 3 → ledgerSuccess (resps i) = false) :
    ledger_append resps =
      ([LedgerEvent.post 0, LedgerEvent.sleep 1, LedgerEvent.post 1,
        LedgerEvent.sleep 2, LedgerEvent.post 2, LedgerEvent.sleep 4], false) := by
  have h0 := hfail 0 (by omega)
  have h1 := hfail 1 (by omega)
  have h2 := hfail 2 (by omega)
  simp [ledger_append, ledger_append_aux, h0, h1, h2]

/-- C7: `LedgerClient.append` retries transient failures within a bound of 3
attempts, sleeping `2 ** attempt` seconds after each failed attempt (the
backoff delay doubles: 1s, 2s, 4s), and when every attempt fails it raises
`RuntimeError` — aborting the run — instead of returning success: the whole
trace is exactly three posts interleaved with the doubling sleeps, ending in
the raised-error flag. -/
theorem C7_ledger_append_retries (resps : Nat → LedgerResponse)
    (hfail : ∀ i, i < 3 → ledgerSuccess (resps i) = false) :
    ledger_append resps =
      ([LedgerEvent.post 0, LedgerEvent.sleep 1, LedgerEvent.post 1,
        LedgerEvent.sleep 2, LedgerEvent.post 2, LedgerEvent.sleep 4], false) :=
  ledger_append_exhausts resps hfail

/-- Witness for C7 at the all-HTTP-500 response sequence. -/
theorem C7_ledger_append_retries_witness :
    (∀ i, i < 3 → ledgerSuccess ((fun _ => (⟨500, false⟩ : LedgerResponse)) i) = false) ∧
    ledger_append (fun _ => (⟨500, false⟩ : LedgerResponse)) =
      ([LedgerEvent.post 0, LedgerEvent.sleep 1, LedgerEvent.post 1,
        LedgerEvent.sleep 2, LedgerEvent.post 2, LedgerEvent.sleep 4], false) :=
  ⟨fun _ _ => rfl,
   C7_ledger_append_retries (fun _ => (⟨500, false⟩ : LedgerResponse)) (fun _ _ => rfl)⟩

/-- C2: (1) a Ledger append answered with HTTP 500 on all three attempts
raises; (2) with the Ledger configured and the raw batch non-empty, if its
append exhausts its retries the tick aborts having issued no Store load at
all; (3) with the Ledger configured, whenever the executed trace contains the
Store load of a batch, the Ledger append of that batch's stream succeeded and
appears strictly before it in the trace — never the reverse. -/
theorem C2_ledger_before_store :
    (∀ resps : Nat → LedgerResponse,
        (∀ i, i < 3 → (resps i).status = 500) → (ledger_append resps).2 = false) ∧
    (∀ attNE enrNE disNE okAtt okEnr okDis : Bool,
        (tickTrace true true attNE enrNE disNE (okOf false okAtt okEnr okDis)).2 = false ∧
        (tickTrace true true attNE enrNE disNE
            (okOf false okAtt okEnr okDis)).1.any isStoreLoad = false) ∧
    (∀ rawNE attNE enrNE disNE okRaw okAtt okEnr okDis : Bool,
      ∀ p ∈ ([("redisq_raw", "redisq_raw_log"),
              ("enrich_attempts", "enrich_attempts_log"),
              ("enriched", "kills_enriched_log"),
              ("discarded", "kills_discarded_log")] : List (String × String)),
        TickOp.storeLoad p.2 ∈
            (tickTrace true rawNE attNE enrNE disNE (okOf okRaw okAtt okEnr okDis)).1 →
          okOf okRaw okAtt okEnr okDis p.1 = true ∧
          appearsBefore (TickOp.ledgerAppend p.1) (TickOp.storeLoad p.2)
            (tickTrace true rawNE attNE enrNE disNE
              (okOf okRaw okAtt okEnr okDis)).1 = true) := by
  refine ⟨?_, ?_, ?_⟩
  · intro resps h
    have hfail : ∀ i, i < 3 → ledgerSuccess (resps i) = false := by
      intro i hi
      simp [ledgerSuccess, h i hi]
    rw [ledger_append_exhausts resps hfail]
  · decide
  · decide

/-- Witness for C2 at a concrete failing raw append and a concrete successful
tick. -/
theorem C2_ledger_before_store_witness :
    ((∀ i, i < 3 → ((fun _ => (⟨500, false⟩ : LedgerResponse)) i).status = 500) ∧
      (ledger_append (fun _ => (⟨500, false⟩ : LedgerResponse))).2 = false) ∧
    (tickTrace true true true true true (okOf false true true true)).1.any isStoreLoad
      = false ∧
    appearsBefore (TickOp.ledgerAppend "redisq_raw") (TickOp.storeLoad "redisq_raw_log")
      (tickTrace true true true true true (okOf true true true true)).1 = true :=
  ⟨⟨fun _ _ => rfl,
      C2_ledger_before_store.1 (fun _ => (⟨500, false⟩ : LedgerResponse)) (fun _ _ => rfl)⟩,
   (C2_ledger_before_store.2.1 true true true true true true).2,
   (C2_ledger_before_store.2.2 true true true true true true true true
      ("redisq_raw", "redisq_raw_log") (by decide) (by decide)).2⟩

/-- Looking up the key just assigned by `setAssoc` yields the new value. -/
theorem lookup_setAssoc_self {V : Type} (m : List (String × V)) (k : String) (v : V) :
    (setAssoc m k v).lookup k = some v := by
  induction m with
  | nil => simp [setAssoc, List.lookup]
  | cons p rest ih =>
    obtain ⟨k', v'⟩ := p
    by_cases h : k' = k
    · subst h
      simp [setAssoc, List.lookup]
    · have h1 : (k' == k) = false := beq_eq_false_iff_ne.mpr h
      have h2 : (k == k') = false := beq_eq_false_iff_ne.mpr (Ne.symm h)
      simp [setAssoc, List.lookup, h1, h2, ih]

/-- A successful `get_json` leaves the body cached under the resolved URL. -/
theorem get_json_caches {V : Type} (net : EsiRequest → EsiResponse V)
    (st : EsiState V) (path : String) (v : V) (st' : EsiState V)
    (reqs : List EsiRequest)
    (h : get_json net st path = (Except.ok (v, st'), reqs)) :
    st'.cache.lookup (ESI_BASE ++ path) = some v := by
  simp only [get_json] at h
  split at h
  next v0 heq =>
    simp only [Prod.mk.injEq, Except.ok.injEq] at h
    obtain ⟨⟨hv, hst⟩, -⟩ := h
    subst hst
    rw [heq, hv]
  next heq =>
    split at h
    · split at h
      next v1 heq2 => simp at heq2
      next => simp at h
    · split at h
      · simp at h
      · simp only [Prod.mk.injEq, Except.ok.injEq] at h
        obtain ⟨⟨hv, hst⟩, -⟩ := h
        subst hst
        rw [← hv]
        exact lookup_setAssoc_self st.cache (ESI_BASE ++ path) _

/-- Assigning one key with `setAssoc` leaves every other key's binding
untouched. -/
theorem lookup_setAssoc_of_ne {V : Type} (m : List (String × V)) (k k' : String)
    (v' : V) (h : k ≠ k') :
    (setAssoc m k' v').lookup k = m.lookup k := by
  have hkk : (k == k') = false := beq_eq_false_iff_ne.mpr h
  induction m with
  | nil => simp [setAssoc, List.lookup, hkk]
  | cons p rest ih =>
    obtain ⟨q, w⟩ := p
    by_cases hq : (q == k') = true
    · have hq' : q = k' := by simpa using hq
      subst hq'
      simp [setAssoc, List.lookup, hkk]
    · have hqf : (q == k') = false := by simpa using hq
      by_cases hkq : (k == q) = true
      · simp [setAssoc, List.lookup, hqf, hkq]
      · have hkqf : (k == q) = false := by simpa using hkq
        simp [setAssoc, List.lookup, hqf, hkqf, ih]

/-- A successful `get_json` call — for any path — preserves every existing
cache entry: the only write is `setAssoc` under the called URL, and that URL
was not cached (a cached URL short-circuits without writing). -/
theorem get_json_preserves_cache {V : Type} (net : EsiRequest → EsiResponse V)
    (st : EsiState V) (path' : String) (w : V) (st'' : EsiState V)
    (reqs : List EsiRequest)
    (h : get_json net st path' = (Except.ok (w, st''), reqs))
    (url : String) (v : V) (hv : st.cache.lookup url = some v) :
    st''.cache.lookup url = some v := by
  simp only [get_json] at h
  split at h
  next w0 heq =>
    simp only [Prod.mk.injEq, Except.ok.injEq] at h
    obtain ⟨⟨-, hst⟩, -⟩ := h
    subst hst
    exact hv
  next heq =>
    split at h
    · split at h
      next w1 heq2 => simp at heq2
      next => simp at h
    · split at h
      · simp at h
      · simp only [Prod.mk.injEq, Except.ok.injEq] at h
        obtain ⟨⟨-, hst⟩, -⟩ := h
        subst hst
        by_cases hu : url = ESI_BASE ++ path'
        · subst hu
          rw [hv] at heq
          simp at heq
        · rw [lookup_setAssoc_of_ne st.cache url (ESI_BASE ++ path') _ hu]
          exact hv

/-- A cached body survives any sequence of further `get_json` calls within
the run, whatever their paths and outcomes. -/
theorem run_steps_preserves_cache {V : Type} (url : String) (v : V) :
    ∀ (steps : List ((EsiRequest → EsiResponse V) × String)) (st : EsiState V),
      st.cache.lookup url = some v →
      (run_steps steps st).cache.lookup url = some v := by
  intro steps
  induction steps with
  | nil => intro st hv; exact hv
  | cons p rest ih =>
    intro st hv
    obtain ⟨net, path⟩ := p
    simp only [run_steps]
    rcases hg : get_json net st path with ⟨res, reqs⟩
    rcases res with e | ⟨w, st'⟩
    · exact ih st hv
    · exact ih st' (get_json_preserves_cache net st path w st' reqs hg url v hv)

/-- C9: after a successful `get_json` for a path, every subsequent `get_json`
for the same path within the run — after any sequence of intervening
`get_json` calls for arbitrary paths and against any network whatsoever —
returns exactly the value of the first call, leaves the client state
unchanged, and issues no request at all (not even a conditional one): the
cache check on the resolved URL short-circuits before any request is made.
Consequently the 304 branch is reachable only when no body is cached for the
URL. -/
theorem C9_cache_short_circuit {V : Type} (net net2 : EsiRequest → EsiResponse V)
    (st : EsiState V) (path : String) (v : V) (st' : EsiState V)
    (reqs : List EsiRequest)
    (h : get_json net st path = (Except.ok (v, st'), reqs))
    (steps : List ((EsiRequest → EsiResponse V) × String)) :
    get_json net2 (run_steps steps st') path =
      (Except.ok (v, run_steps steps st'), []) := by
  have hcache : (run_steps steps st').cache.lookup (ESI_BASE ++ path) = some v :=
    run_steps_preserves_cache (ESI_BASE ++ path) v steps st'
      (get_json_caches net st path v st' reqs h)
  simp only [get_json, hcache]

/-- Witness for C9: a concrete first fetch of `/x/`, one intervening
successful fetch of another path `/y/` (which demonstrably grows the cache),
then a repeat of `/x/` against a network that would answer differently —
served from cache, no request issued. -/
theorem C9_cache_short_circuit_witness :
    get_json (fun _ => (⟨200, some "etag1", 42⟩ : EsiResponse Nat)) ⟨[], []⟩ "/x/" =
      (Except.ok (42, (⟨[("https://esi.evetech.net/latest/x/", "etag1")],
                        [("https://esi.evetech.net/latest/x/", 42)]⟩ : EsiState Nat)),
       [⟨"https://esi.evetech.net/latest/x/", none⟩]) ∧
    run_steps [((fun _ => (⟨200, none, 99⟩ : EsiResponse Nat)), "/y/")]
        (⟨[("https://esi.evetech.net/latest/x/", "etag1")],
          [("https://esi.evetech.net/latest/x/", 42)]⟩ : EsiState Nat) =
      (⟨[("https://esi.evetech.net/latest/x/", "etag1")],
        [("https://esi.evetech.net/latest/x/", 42),
         ("https://esi.evetech.net/latest/y/", 99)]⟩ : EsiState Nat) ∧
    get_json (fun _ => (⟨500, none, 0⟩ : EsiResponse Nat))
      (⟨[("https://esi.evetech.net/latest/x/", "etag1")],
        [("https://esi.evetech.net/latest/x/", 42),
         ("https://esi.evetech.net/latest/y/", 99)]⟩ : EsiState Nat) "/x/" =
      (Except.ok (42, (⟨[("https://esi.evetech.net/latest/x/", "etag1")],
                        [("https://esi.evetech.net/latest/x/", 42),
                         ("https://esi.evetech.net/latest/y/", 99)]⟩ : EsiState Nat)),
       []) :=
  ⟨rfl, rfl,
   C9_cache_short_circuit (fun _ => (⟨200, some "etag1", 42⟩ : EsiResponse Nat))
     (fun _ => (⟨500, none, 0⟩ : EsiResponse Nat)) ⟨[], []⟩ "/x/" 42 _ _ rfl
     [((fun _ => (⟨200, none, 99⟩ : EsiResponse Nat)), "/y/")]⟩

/-- Response sequence for C6: the first poll returns HTTP 200 with no
`package` field; every later poll would deliver a package. -/
def c6resps : Nat → PollResponse RqPkg := fun i =>
  if i == 0 then ⟨200, none⟩ else ⟨200, some ⟨some 1, some "h"⟩⟩

/-- C6 fails on `redisq_listen`: with `max_polls = 2` and a package available
at the second iteration, a first response with no `package` field makes
`redisq_listen` return `ok []` — the second iteration never happens, so
polling does not continue up to the cap (the same input under
rq_listener.py's loop does collect the package). -/
theorem C6_counterexample :
    redisq_listen c6resps 2 = Except.ok [] ∧
    (c6resps 1).package = some ⟨some 1, some "h"⟩ ∧
    rq_listener_loop c6resps 2 0 [] = [⟨some 1, some "h"⟩] := by
  refine ⟨rfl, by decide, by decide⟩

/-- C6 amended: a response with no `package` field is not an error in either
poller; in the standalone listener (rq_listener.py) it is `continue`, so
polling goes on up to the `max_packages` cap, while in the pipeline's
`redisq_listen` it ends the poll pass early, returning the packages collected
so far.  Part (1): `k` consecutive empty-package responses leave
rq_listener's loop running at iteration `i + k` with the remaining budget and
an unchanged accumulator.  Part (2): `redisq_listen`'s loop, met by an
empty-package 200 response with budget remaining, returns `ok` of what it has
collected — no error. -/
theorem C6_empty_package (resps : Nat → PollResponse RqPkg) :
    (∀ k fuel i out,
        (∀ d, d < k → resps (i + d) = ⟨200, none⟩) →
        rq_listener_loop resps (k + fuel) i out = rq_listener_loop resps fuel (i + k) out) ∧
    (∀ fuel i out, resps i = ⟨200, none⟩ →
        redisq_listen_aux resps (fuel + 1) i out = Except.ok out.reverse) := by
  constructor
  · intro k
    induction k with
    | zero =>
      intro fuel i out _
      rw [Nat.zero_add, Nat.add_zero]
    | succ k ih =>
      intro fuel i out hemp
      have h0 : resps i = ⟨200, none⟩ := by
        have := hemp 0 (by omega)
        simpa using this
      have hstep : rq_listener_loop resps (k + 1 + fuel) i out =
          rq_listener_loop resps (k + fuel) (i + 1) out := by
        have : k + 1 + fuel = (k + fuel) + 1 := by omega
        rw [this]
        simp [rq_listener_loop, h0]
      rw [hstep, ih fuel (i + 1) out (fun d hd => by
        have := hemp (d + 1) (by omega)
        simpa [Nat.add_assoc, Nat.add_comm 1 d] using this)]
      have : i + 1 + k = i + (k + 1) := by omega
      rw [this]
  · intro fuel i out h
    simp [redisq_listen_aux, h]

/-- Witness for C6's amended statement at the concrete `c6resps` sequence. -/
theorem C6_empty_package_witness :
    (∀ d, d < 1 → c6resps (0 + d) = ⟨200, none⟩) ∧
    rq_listener_loop c6resps (1 + 1) 0 [] = rq_listener_loop c6resps 1 (0 + 1) [] ∧
    redisq_listen_aux c6resps (1 + 1) 0 [] = Except.ok ([] : List RqPkg).reverse := by
  have hd : ∀ d, d < 1 → c6resps (0 + d) = ⟨200, none⟩ := by
    intro d hd
    have : d = 0 := by omega
    subst this
    rfl
  exact ⟨hd, (C6_empty_package c6resps).1 1 1 0 [] hd,
    (C6_empty_package c6resps).2 1 0 [] rfl⟩

/-- Every row returned by `choose_pending` is a view row: its `worked` and
`attempts` columns are the derived functions of its killmail id, and it
passed the WHERE clause. -/
theorem mem_choose_pending {raw : List RawRow} {att : List AttemptLogRow}
    {enr dis : List Int} {limit_n : Nat} {r : StateRow}
    (hr : r ∈ choose_pending raw att enr dis limit_n) :
    r.worked = worked enr dis r.killmail_id ∧
    r.attempts = attemptsOf att r.killmail_id ∧
    pendingPred r = true := by
  have h1 : r ∈ List.insertionSort byFirstSeen
      ((v_kills_raw_state raw att enr dis).filter pendingPred) :=
    List.mem_of_mem_take hr
  have h2 : r ∈ (v_kills_raw_state raw att enr dis).filter pendingPred :=
    (List.perm_insertionSort byFirstSeen _).mem_iff.1 h1
  obtain ⟨hmem, hpred⟩ := List.mem_filter.1 h2
  obtain ⟨k, hk, hEq⟩ := List.mem_map.1 hmem
  subst hEq
  exact ⟨rfl, rfl, hpred⟩

/-- C1: once the killmail id occurs in the enriched log or in the discarded
log, the derived state computes `worked = true` and `choose_pending` never
returns a row for it — for every raw log and every attempts log, i.e. no
matter how many further RawEvents or AttemptRecords are appended. -/
theorem C1_terminal_never_pending (raw : List RawRow) (att : List AttemptLogRow)
    (enr dis : List Int) (k : Int) (limit_n : Nat)
    (h : enr.contains k = true ∨ dis.contains k = true) :
    worked enr dis k = true ∧
    ∀ r ∈ choose_pending raw att enr dis limit_n, r.killmail_id ≠ k := by
  have hw : worked enr dis k = true := by
    rcases h with h | h <;> simp_all [worked]
  refine ⟨hw, ?_⟩
  intro r hr heq
  obtain ⟨hwr, -, hp⟩ := mem_choose_pending hr
  rw [heq, hw] at hwr
  simp [pendingPred, hwr] at hp

/-- Witness for C1: id 5 is in the discarded log; later raw rows for it do
not bring it back. -/
theorem C1_terminal_never_pending_witness :
    (([] : List Int).contains 5 = true ∨ ([5] : List Int).contains 5 = true) ∧
    (worked [] [5] 5 = true ∧
      ∀ r ∈ choose_pending [⟨5, 0⟩, ⟨5, 9⟩] [⟨5, 1, false⟩] [] [5] 10,
        r.killmail_id ≠ 5) :=
  ⟨Or.inr (by decide),
   C1_terminal_never_pending [⟨5, 0⟩, ⟨5, 9⟩] [⟨5, 1, false⟩] [] [5] 5 10
     (Or.inr (by decide))⟩

/-- C3: `choose_pending` returns only rows with `worked = false` and
`attempts ≤ 10`; the result is sorted by ascending first-seen timestamp and
has at most `limit_n` rows; it is exactly the truncation to `limit_n` of a
sorted enumeration of all qualifying view rows; and a killmail id with 11
recorded attempts is never returned, worked or not. -/
theorem C3_choose_pending_exact (raw : List RawRow) (att : List AttemptLogRow)
    (enr dis : List Int) (limit_n : Nat) :
    (∀ r ∈ choose_pending raw att enr dis limit_n,
        r.worked = false ∧ r.attempts ≤ 10) ∧
    List.Sorted byFirstSeen (choose_pending raw att enr dis limit_n) ∧
    (choose_pending raw att enr dis limit_n).length ≤ limit_n ∧
    (∃ l, l.Perm ((v_kills_raw_state raw att enr dis).filter pendingPred) ∧
        List.Sorted byFirstSeen l ∧
        choose_pending raw att enr dis limit_n = l.take limit_n) ∧
    (∀ k, attemptsOf att k = 11 →
        ∀ r ∈ choose_pending raw att enr dis limit_n, r.killmail_id ≠ k) := by
  refine ⟨?_, ?_, ?_, ?_, ?_⟩
  · intro r hr
    obtain ⟨-, -, hp⟩ := mem_choose_pending hr
    simpa [pendingPred] using hp
  · exact List.Pairwise.sublist (List.take_sublist _ _)
      (List.sorted_insertionSort byFirstSeen _)
  · exact List.length_take_le _ _
  · exact ⟨_, List.perm_insertionSort byFirstSeen _,
      List.sorted_insertionSort byFirstSeen _, rfl⟩
  · intro k hk r hr heq
    obtain ⟨-, ha, hp⟩ := mem_choose_pending hr
    rw [heq, hk] at ha
    simp [pendingPred, ha] at hp

/-- Witness for C3: id 1 has 11 attempts and `worked = false`, yet is
excluded. -/
theorem C3_choose_pending_exact_witness :
    attemptsOf (List.replicate 11 ⟨1, 0, false⟩) 1 = 11 ∧
    ∀ r ∈ choose_pending [⟨1, 5⟩, ⟨2, 3⟩] (List.replicate 11 ⟨1, 0, false⟩) [] [] 10,
      r.killmail_id ≠ 1 :=
  ⟨by decide,
   (C3_choose_pending_exact [⟨1, 5⟩, ⟨2, 3⟩] (List.replicate 11 ⟨1, 0, false⟩)
     [] [] 10).2.2.2.2 1 (by decide)⟩

/-- C5: the filter rules are applied in the fixed order npc_only_or_not_pvp,
awox_friendly_fire, self_destruct with first-match-wins: an event with
`npc = true` (in particular one that additionally has `awox = true`) is
discarded as `npc_only_or_not_pvp` and never as `awox_friendly_fire`; and
every filter decision, whatever its reason, contributes exactly one
AttemptRecord with stage `"filter"` and outcome ok. -/
theorem C5_filter_first_match (km : Killmail) (e : Option String) (reason : String) :
    filter_reason true true km = some "npc_only_or_not_pvp" ∧
    filter_reason true true km ≠ some "awox_friendly_fire" ∧
    (∀ npc awox, filter_reason npc awox km = some reason →
      process_item npc awox (Except.ok km) e =
        ⟨[⟨"filter", true, ""⟩], some reason, false⟩) := by
  refine ⟨by simp [filter_reason], ?_, ?_⟩
  · simp [filter_reason]
  · intro npc awox h
    simp [process_item, h]

/-- Witness for C5 at an npc-and-awox event. -/
theorem C5_filter_first_match_witness :
    filter_reason true true ⟨some 5, [⟨some 9, none, true, none⟩]⟩ =
      some "npc_only_or_not_pvp" ∧
    process_item true true (Except.ok ⟨some 5, [⟨some 9, none, true, none⟩]⟩) none =
      ⟨[⟨"filter", true, ""⟩], some "npc_only_or_not_pvp", false⟩ :=
  ⟨(C5_filter_first_match ⟨some 5, [⟨some 9, none, true, none⟩]⟩ none "").1,
   (C5_filter_first_match ⟨some 5, [⟨some 9, none, true, none⟩]⟩ none
       "npc_only_or_not_pvp").2.2 true true (by decide)⟩

/-- C10: every AttemptRecord an orchestrator tick emits for a pending item
has stage `"filter"` or `"enrich"` — never `"fetch"` — and a failed outcome
occurs only with stage `"enrich"`; when the killmail-detail fetch itself
raises, the item's sole AttemptRecord has stage `"enrich"`, outcome fail and
the message truncated to 500 characters. -/
theorem C10_attempt_stages (npc awox : Bool) (fetch : Except String Killmail)
    (e : Option String) :
    (∀ a ∈ (process_item npc awox fetch e).attempts,
        (a.stage = "filter" ∨ a.stage = "enrich") ∧
        a.stage ≠ "fetch" ∧
        (a.ok = false → a.stage = "enrich")) ∧
    (∀ msg, fetch = Except.error msg →
        (process_item npc awox fetch e).attempts =
          [⟨"enrich", false, msg.take 500⟩]) := by
  constructor
  · intro a ha
    rcases fetch with msg | km
    · simp [process_item] at ha
      subst ha
      simp
    · rcases hf : filter_reason npc awox km with _ | reason
      · rcases e with _ | msg
        · simp [process_item, hf] at ha
          subst ha
          simp
        · simp [process_item, hf] at ha
          subst ha
          simp
      · simp [process_item, hf] at ha
        subst ha
        simp
  · intro msg hmsg
    subst hmsg
    rfl

/-- Witness for C10 at a failing fetch. -/
theorem C10_attempt_stages_witness :
    ((Except.error "boom" : Except String Killmail) = Except.error "boom") ∧
    (process_item false false (Except.error "boom") none).attempts =
      [⟨"enrich", false, ("boom").take 500⟩] :=
  ⟨rfl, (C10_attempt_stages false false (Except.error "boom") none).2 "boom" rfl⟩

/-- The label loop only ever produces the capital or the subcapital result. -/
theorem cat_label_scan_shape (lab : List String) :
    ∀ l res, cat_label_scan lab l = some res →
      res = ("capital", false, false) ∨ res = ("subcapital", false, false) := by
  intro l
  induction l with
  | nil => intro res h; simp [cat_label_scan] at h
  | cons x rest ih =>
    intro res h
    rcases hp : parse_cat x with _ | n
    · simp only [cat_label_scan, hp] at h
      exact ih res h
    · simp only [cat_label_scan, hp] at h
      split at h
      · simp only [Option.some.injEq] at h
        exact Or.inl h.symm
      · split at h
        · simp only [Option.some.injEq] at h
          exact Or.inr h.symm
        · exact ih res h

/-- When no label parses to a small category number, a `cat:7` label (with
`cat:6` absent) makes the label loop return the capital result. -/
theorem cat_label_scan_capital (lab : List String)
    (h6 : lab.contains "cat:6" = false)
    (hsmall : ∀ x ∈ lab, ∀ n, parse_cat x = some n → 5 < n) :
    ∀ l, "cat:7" ∈ l → (∀ x ∈ l, x ∈ lab) →
      cat_label_scan lab l = some ("capital", false, false) := by
  intro l
  induction l with
  | nil => intro h7 _; simp at h7
  | cons x rest ih =>
    intro h7 hsub
    rcases hp : parse_cat x with _ | n
    · simp only [cat_label_scan, hp]
      have hx7 : x ≠ "cat:7" := by
        intro he
        subst he
        rw [show parse_cat "cat:7" = some 7 from by decide] at hp
        cases hp
      have h7' : "cat:7" ∈ rest := by
        rcases List.mem_cons.1 h7 with he | hm
        · exact absurd he hx7.symm
        · exact hm
      exact ih h7' (fun y hy => hsub y (List.mem_cons_of_mem x hy))
    · simp only [cat_label_scan, hp]
      have hn : 5 < n := hsmall x (hsub x (List.mem_cons_self x rest)) n hp
      by_cases hcase : n ≤ 7
      · rw [if_pos ⟨by omega, hcase, h6⟩]
      · rw [if_neg (fun hc => hcase hc.2.1), if_neg (by omega)]
        have hx7 : x ≠ "cat:7" := by
          intro he
          subst he
          rw [show parse_cat "cat:7" = some 7 from by decide] at hp
          injection hp with h77
          omega
        have h7' : "cat:7" ∈ rest := by
          rcases List.mem_cons.1 h7 with he | hm
          · exact absurd he hx7.symm
          · exact hm
        exact ih h7' (fun y hy => hsub y (List.mem_cons_of_mem x hy))

/-- C4 fails on the code: for the set of labels {"cat:3", "cat:7"} (no
"cat:6") the claim requires `capital`, but the result depends on the
unspecified iteration order of the Python set — with "cat:3" iterated first
the code returns `subcapital`, with "cat:7" first it returns `capital`.  The
per-label check tests the capital condition before the subcapital condition,
but across labels the first deciding label wins, whichever class it
selects. -/
theorem C4_counterexample :
    victim_ship_class ["cat:3", "cat:7"] none = ("subcapital", false, false) ∧
    victim_ship_class ["cat:7", "cat:3"] none = ("capital", false, false) := by
  exact ⟨by decide, by decide⟩

/-- C4 amended: the result is always one of the six classes, and `cat:8`
overrides every ship-type lookup; rules (a)-(d) keep their order, but rules
(e) and (f) are evaluated per label in the set's unspecified iteration order
(testing capital before subcapital on each single label), so a `cat:7` label
with `cat:6` absent yields `capital` only when no `cat:N` label with `N ≤ 5`
can be iterated first — in particular whenever no such small-N label is
present at all, as stated here. -/
theorem C4_ship_class (lab : List String) (g : Option String) :
    (victim_ship_class lab g).1 ∈
      (["structure", "capsule", "freighter", "hauler", "capital", "subcapital"] :
        List String) ∧
    (lab.contains "cat:8" = true →
      victim_ship_class lab g = ("structure", false, false)) ∧
    (lab.contains "cat:8" = false → lab.contains "cat:6" = false →
      pyLower (g.getD "") ∉
        (["capsule", "freighter", "jump freighter", "industrial",
          "transport ship", "blockade runner", "deep space transport"] :
          List String) →
      lab.contains "cat:7" = true →
      (∀ x ∈ lab, ∀ n, parse_cat x = some n → 5 < n) →
      victim_ship_class lab g = ("capital", false, false)) := by
  refine ⟨?_, ?_, ?_⟩
  · simp only [victim_ship_class]
    split
    · simp
    · split
      · simp
      · split
        · simp
        · split
          · simp
          · rcases hscan : cat_label_scan lab lab with _ | res
            · simp
            · rcases cat_label_scan_shape lab lab res hscan with h | h <;>
                subst h <;> simp
  · intro h8
    have h8m : "cat:8" ∈ lab := by simpa using h8
    simp [victim_ship_class, h8m]
  · intro h8 h6 hg h7 hsmall
    simp only [List.mem_cons, List.mem_singleton, not_or] at hg
    obtain ⟨hg1, hg2, hg3, hg4, hg5, hg6, hg7, -⟩ := hg
    have h8m : "cat:8" ∉ lab := by simpa using h8
    have h6m : "cat:6" ∉ lab := by simpa using h6
    have h7m : "cat:7" ∈ lab := by simpa using h7
    have hcap := cat_label_scan_capital lab h6 hsmall lab h7m (fun x hx => hx)
    simp [victim_ship_class, h8m, h6m, hcap,
      hg1, hg2, hg3, hg4, hg5, hg6, hg7]

/-- Witness for C4's amended statement: a lone `cat:7` label classifies as
capital. -/
theorem C4_ship_class_witness :
    (["cat:7"].contains "cat:8" = false ∧ ["cat:7"].contains "cat:6" = false ∧
      ["cat:7"].contains "cat:7" = true) ∧
    victim_ship_class ["cat:7"] none = ("capital", false, false) :=
  ⟨⟨by decide, by decide, by decide⟩,
   (C4_ship_class ["cat:7"] none).2.2 (by decide) (by decide) (by decide) (by decide)
     (by
       intro x hx n hn
       have hx7 : x = "cat:7" := by simpa using hx
       subst hx7
       rw [show parse_cat "cat:7" = some 7 from by decide] at hn
       injection hn with h
       omega)⟩

/-- `build_chosen` only ever appends to its accumulator. -/
theorem build_chosen_append (l : List (Option Int)) :
    ∀ acc, ∃ more, build_chosen l acc = acc ++ more := by
  induction l with
  | nil => intro acc; exact ⟨[], by simp [build_chosen]⟩
  | cons c rest ih =>
    intro acc
    rcases c with _ | cid
    · simpa [build_chosen] using ih acc
    · simp only [build_chosen]
      split
      · obtain ⟨more, hm⟩ := ih (acc ++ [cid])
        exact ⟨cid :: more, by rw [hm, List.append_assoc]; rfl⟩
      · exact ih acc

/-- `dedup_names` only ever appends to its accumulator. -/
theorem dedup_names_append (ns : List (Option String)) :
    ∀ out, ∃ more, dedup_names ns out = out ++ more := by
  induction ns with
  | nil => intro out; exact ⟨[], by simp [dedup_names]⟩
  | cons n rest ih =>
    intro out
    rcases n with _ | s
    · simpa [dedup_names] using ih out
    · simp only [dedup_names]
      split
      · obtain ⟨more, hm⟩ := ih (out ++ [s])
        exact ⟨s :: more, by rw [hm, List.append_assoc]; rfl⟩
      · exact ih out

/-- `dedup_names` preserves freedom from duplicates. -/
theorem dedup_names_nodup (ns : List (Option String)) :
    ∀ out, out.Nodup → (dedup_names ns out).Nodup := by
  induction ns with
  | nil => intro out h; simpa [dedup_names] using h
  | cons n rest ih =>
    intro out h
    rcases n with _ | s
    · simpa [dedup_names] using ih out h
    · simp only [dedup_names]
      split
      next hcond =>
        apply ih
        rw [Bool.and_eq_true] at hcond
        have hs : s ∉ out := by simpa using hcond.2
        simp [List.nodup_append, h, hs]
      next => exact ih out h

/-- Every name kept by `dedup_names` came from the name list (unless it was
already in the accumulator) and is non-empty. -/
theorem dedup_names_mem (x : String) :
    ∀ (ns : List (Option String)) (out : List String), x ∈ dedup_names ns out →
      x ∈ out ∨ (some x ∈ ns ∧ x ≠ "") := by
  intro ns
  induction ns with
  | nil =>
    intro out h
    left
    simpa [dedup_names] using h
  | cons n rest ih =>
    intro out h
    rcases n with _ | s
    · simp only [dedup_names] at h
      rcases ih out h with h1 | ⟨h1, h2⟩
      · exact Or.inl h1
      · exact Or.inr ⟨List.mem_cons_of_mem _ h1, h2⟩
    · simp only [dedup_names] at h
      split at h
      next hcond =>
        rcases ih (out ++ [s]) h with h1 | ⟨h1, h2⟩
        · rcases List.mem_append.1 h1 with h2 | h2
          · exact Or.inl h2
          · have hxs : x = s := by simpa using h2
            subst hxs
            rw [Bool.and_eq_true] at hcond
            have hne : x ≠ "" := by simpa using hcond.1
            exact Or.inr ⟨List.mem_cons_self _ _, hne⟩
        · exact Or.inr ⟨List.mem_cons_of_mem _ h1, h2⟩
      next =>
        rcases ih out h with h1 | ⟨h1, h2⟩
        · exact Or.inl h1
        · exact Or.inr ⟨List.mem_cons_of_mem _ h1, h2⟩

/-- Every name produced by the resolution loop is the result of `corp_name`
on one of the walked ids. -/
theorem fetch_names_mem (corp_name : Int → Option (Option String))
    (n : Option String) :
    ∀ l, n ∈ fetch_names corp_name l → ∃ cid ∈ l, corp_name cid = some n := by
  intro l
  induction l with
  | nil => intro h; simp [fetch_names] at h
  | cons cid rest ih =>
    intro h
    rcases hc : corp_name cid with _ | n'
    · simp only [fetch_names, hc] at h
      obtain ⟨c, hcm, hce⟩ := ih h
      exact ⟨c, List.mem_cons_of_mem _ hcm, hce⟩
    · simp only [fetch_names, hc] at h
      rcases List.mem_cons.1 h with he | hm
      · subst he
        exact ⟨cid, List.mem_cons_self _ _, hc⟩
      · obtain ⟨c, hcm, hce⟩ := ih hm
        exact ⟨c, List.mem_cons_of_mem _ hcm, hce⟩

/-- One step of the `chosen` loop on a fresh truthy id. -/
theorem build_chosen_cons_truthy (cid : Int) (rest : List (Option Int))
    (acc : List Int) (h0 : cid ≠ 0) (hmem : acc.contains cid = false) :
    build_chosen (some cid :: rest) acc = build_chosen rest (acc ++ [cid]) := by
  have hmem' : cid ∉ acc := by simpa using hmem
  have hc : ((cid != 0) && !acc.contains cid) = true := by
    simp [bne_iff_ne, h0, hmem']
  simp only [build_chosen]
  rw [if_pos hc]

/-- One step of the name-dedup loop on a fresh non-empty name. -/
theorem dedup_names_cons_truthy (s : String) (rest : List (Option String))
    (out : List String) (hs : s ≠ "") (hmem : out.contains s = false) :
    dedup_names (some s :: rest) out = dedup_names rest (out ++ [s]) := by
  have hmem' : s ∉ out := by simpa using hmem
  have hc : ((s != "") && !out.contains s) = true := by
    simp [bne_iff_ne, hs, hmem']
  simp only [dedup_names]
  rw [if_pos hc]

/-- The final-blow scan only ever stores a truthy (non-zero) corp id. -/
theorem scan_final_top_ne_zero :
    ∀ (l : List Attacker) (fc tc : Option Int) (td : Int),
      (∀ c0, fc = some c0 → c0 ≠ 0) →
      ∀ c, (scan_final_top l (fc, tc, td)).1 = some c → c ≠ 0 := by
  intro l
  induction l with
  | nil => intro fc tc td hfc c h; exact hfc c h
  | cons a rest ih =>
    intro fc tc td hfc c h
    simp only [scan_final_top] at h
    refine ih _ _ _ ?_ c h
    intro c0 hc0
    by_cases hcond : (a.final_blow && truthy a.corporation_id) = true
    · rw [if_pos hcond] at hc0
      rw [Bool.and_eq_true] at hcond
      have ht : truthy a.corporation_id = true := hcond.2
      rw [hc0] at ht
      simpa [truthy] using ht
    · rw [if_neg hcond] at hc0
      exact hfc c0 hc0

/-- C8: the attribution output never contains duplicate entries; every entry
is a non-empty display name that `corp_name` actually returned for some id
(ids that fail to resolve are skipped silently); whenever the code's
final-blow corp id is present and resolves to a non-empty name, that name is
the first element of the output; and both the most-attackers pick and the
top-damage pick break ties in favour of the earlier (first-seen) candidate:
a later entry never displaces the current one unless strictly larger. -/
theorem C8_attacker_corps (attackers : List Attacker)
    (corp_name : Int → Option (Option String)) :
    (attacker_corp_names attackers corp_name).Nodup ∧
    (∀ nm ∈ attacker_corp_names attackers corp_name,
        nm ≠ "" ∧ ∃ cid, corp_name cid = some (some nm)) ∧
    (∀ c s, (scan_final_top attackers (none, none, -1)).1 = some c →
        corp_name c = some (some s) → s ≠ "" →
        (attacker_corp_names attackers corp_name).head? = some s) ∧
    (∀ (counts : List (Int × Nat)) (c : Int) (n : Nat),
        (∀ p ∈ counts, p.2 ≤ n) → max_count_go counts c n = c) ∧
    (∀ (l : List Attacker) (fc tc : Option Int) (td : Int),
        (∀ a ∈ l, dmg_of a ≤ td) → (scan_final_top l (fc, tc, td)).2.1 = tc) := by
  refine ⟨?_, ?_, ?_, ?_, ?_⟩
  · by_cases he : attackers.isEmpty
    · simp [attacker_corp_names, he]
    · simp only [attacker_corp_names, he, Bool.false_eq_true, if_false]
      exact dedup_names_nodup _ [] List.nodup_nil
  · intro nm hnm
    by_cases he : attackers.isEmpty
    · simp [attacker_corp_names, he] at hnm
    · simp only [attacker_corp_names, he, Bool.false_eq_true, if_false] at hnm
      rcases dedup_names_mem nm _ _ hnm with h1 | ⟨h1, h2⟩
      · simp at h1
      · obtain ⟨cid, -, hce⟩ := fetch_names_mem corp_name (some nm) _ h1
        exact ⟨h2, cid, hce⟩
  · intro c s hfb hres hs
    have hne : attackers.isEmpty = false := by
      cases attackers with
      | nil => simp [scan_final_top] at hfb
      | cons a l => rfl
    have hc0 : c ≠ 0 :=
      scan_final_top_ne_zero attackers none none (-1) (fun c0 h => nomatch h) c hfb
    simp only [attacker_corp_names, hne, Bool.false_eq_true, if_false]
    rw [hfb]
    simp only [List.cons_append, List.nil_append]
    rw [build_chosen_cons_truthy c _ [] hc0 rfl]
    simp only [List.nil_append]
    obtain ⟨more, hm⟩ := build_chosen_append
      ((scan_final_top attackers (none, none, -1)).2.1 ::
        max_by_count (corp_counts attackers) ::
        List.map some (quarter_corps (corp_counts attackers) attackers.length)) [c]
    rw [hm]
    simp only [List.singleton_append, List.append_eq, List.nil_append,
      fetch_names, hres]
    rw [dedup_names_cons_truthy s _ [] hs rfl]
    simp only [List.nil_append]
    obtain ⟨more2, hm2⟩ := dedup_names_append (fetch_names corp_name more) [s]
    rw [hm2]
    rfl
  · intro counts
    induction counts with
    | nil => intro c n _; rfl
    | cons p rest ih =>
      intro c n hle
      obtain ⟨c', n'⟩ := p
      have h1 : n' ≤ n := hle (c', n') (List.mem_cons_self _ _)
      simp only [max_count_go]
      rw [if_neg (by omega)]
      exact ih c n (fun q hq => hle q (List.mem_cons_of_mem _ hq))
  · intro l
    induction l with
    | nil => intro fc tc td _; rfl
    | cons a rest ih =>
      intro fc tc td hle
      have h1 : dmg_of a ≤ td := hle a (List.mem_cons_self _ _)
      simp only [scan_final_top]
      rw [show (decide (td < dmg_of a) && truthy a.corporation_id) = false by
        simp [decide_eq_false_iff_not]
        intro h
        omega]
      exact ih _ tc td (fun b hb => hle b (List.mem_cons_of_mem _ hb))

/-- Witness for C8: final-blow corp 200 resolves to "Beta", which heads the
output. -/
theorem C8_attacker_corps_witness :
    ((scan_final_top
        [⟨some 1, some 100, false, some 50⟩, ⟨some 2, some 200, true, some 10⟩,
         ⟨some 3, some 100, false, some 20⟩] (none, none, -1)).1 = some 200) ∧
    (attacker_corp_names
        [⟨some 1, some 100, false, some 50⟩, ⟨some 2, some 200, true, some 10⟩,
         ⟨some 3, some 100, false, some 20⟩]
        (fun c => if c == 100 then some (some "Alpha")
          else if c == 200 then some (some "Beta") else none)).head? = some "Beta" :=
  ⟨by decide,
   (C8_attacker_corps
      [⟨some 1, some 100, false, some 50⟩, ⟨some 2, some 200, true, some 10⟩,
       ⟨some 3, some 100, false, some 20⟩]
      (fun c => if c == 100 then some (some "Alpha")
        else if c == 200 then some (some "Beta") else none)).2.2.1 200 "Beta"
     (by decide) (by decide) (by decide)⟩

end Eou
